import Mathlib

/-!
# Verification of the drscp super-check-partial pipeline

Shallow embedding of the drscp program (drscp.cpp / drscp.h) in Lean 4.

Modelling conventions:

* C++ `std::string` callsigns are modelled as `List Char`.
* C++ `int` / `time_t` fields are modelled as `Int`; the program's arithmetic on
  them (frequencies in kHz, minutes, epoch seconds) stays far from the 32-bit
  range, so overflow is not modelled.
* C++ unordered containers are modelled as lists: an `unordered_set` becomes a
  list queried with `contains`, an `unordered_map` becomes an association list.
  Iteration order of unordered containers is unspecified in C++; every result
  we prove is independent of that order.
* A thrown exception is modelled as `Option.none`.
* `std::sort` (unstable, comparator `small_qso::operator<`) is modelled as
  an insertion sort over the induced "not greater" relation; ties are resolved
  in some order, as in the C++ code.
-/

/-- Callsigns are modelled as lists of characters (C++ `std::string`). -/
abbrev Call : Type := List Char

/-- The in-place `swap(call_tmp[posn], call_tmp[posn + 1])` of `is_bust`:
exchange the characters at positions `posn` and `posn + 1`.  The default
character of `getD` is never used at the call sites (`posn + 1` is always in
range there). -/
def swap_adjacent (call : Call) (posn : Nat) : Call :=
  (call.set posn (call.getD (posn + 1) 'A')).set (posn + 1) (call.getD posn 'A')

/-- `is_bust` from drscp.cpp (lines 250-297): is `copied` a plausible bust of
`call`?  Mirrors the C++ control flow: equal strings are never busts; lengths
differing by two or more are never busts; lengths differing by one test
substring containment and deletion of one interior character of the longer
string (loop `posn = 1; posn < longer.length() - 1`); equal lengths test for
exactly one differing position and then for an adjacent transposition. -/
def is_bust (call copied : Call) : Bool :=
  if call = copied then false
  else if 2 ≤ ((call.length : Int) - (copied.length : Int)).natAbs then false
  else if ((call.length : Int) - (copied.length : Int)).natAbs = 1 then
    let longer := if copied.length < call.length then call else copied
    let shorter := if copied.length < call.length then copied else call
    decide (shorter <:+: longer) ||
      (List.range' 1 (longer.length - 2)).any
        (fun posn => decide (longer.take posn ++ longer.drop (posn + 1) = shorter))
  else
    if (call.zip copied).countP (fun pr => decide (pr.1 ≠ pr.2)) = 1 then true
    else (List.range (call.length - 1)).any (fun posn => decide (swap_adjacent call posn = copied))

/-- The adjacent transposition of the spec's rule 3, built positionally:
everything before `posn`, then the two swapped characters, then everything
after `posn + 1`. -/
def spec_swap (target : Call) (posn : Nat) : Call :=
  target.take posn ++ [target.getD (posn + 1) 'A', target.getD posn 'A'] ++ target.drop (posn + 2)

/-- The three-rule reference definition of a bust, written from the spec
(§4.1): lengths differing by ≥ 2 are not busts; lengths differing by one are
busts iff the longer contains the shorter as a substring or deleting one
interior character (position 1 … len(long) − 2) of the longer yields the
shorter; equal lengths are busts iff exactly one character position differs or
an adjacent transposition of the target yields the candidate. -/
def spec_bust (target candidate : Call) : Bool :=
  if 2 ≤ ((target.length : Int) - (candidate.length : Int)).natAbs then false
  else if target.length ≠ candidate.length then
    let long := if candidate.length < target.length then target else candidate
    let short := if candidate.length < target.length then candidate else target
    decide (short <:+: long) ||
      (List.range long.length).any (fun posn =>
        decide (1 ≤ posn) && decide (posn ≤ long.length - 2) && decide (long.eraseIdx posn = short))
  else
    decide ((target.zip candidate).countP (fun pr => decide (pr.1 ≠ pr.2)) = 1) ||
      (List.range target.length).any (fun posn =>
        decide (posn + 1 < target.length) && decide (spec_swap target posn = candidate))

lemma any_range'_interior (L : Nat) (f : Nat → Bool) :
    (List.range' 1 (L - 2)).any f
      = (List.range L).any (fun i => decide (1 ≤ i) && decide (i ≤ L - 2) && f i) := by
  rw [Bool.eq_iff_iff, List.any_eq_true, List.any_eq_true]
  constructor
  · rintro ⟨i, hi, hf⟩
    rw [List.mem_range'_1] at hi
    refine ⟨i, ?_, ?_⟩
    · rw [List.mem_range]; omega
    · simp only [Bool.and_eq_true, decide_eq_true_eq]
      exact ⟨⟨by omega, by omega⟩, hf⟩
  · rintro ⟨i, hi, hf⟩
    rw [List.mem_range] at hi
    simp only [Bool.and_eq_true, decide_eq_true_eq] at hf
    refine ⟨i, ?_, hf.2⟩
    rw [List.mem_range'_1]
    omega

lemma swap_adjacent_eq_spec_swap (t : Call) (i : Nat) (h : i + 1 < t.length) :
    swap_adjacent t i = spec_swap t i := by
  induction t generalizing i with
  | nil => simp at h
  | cons a rest ih =>
    cases i with
    | zero =>
      cases rest with
      | nil => simp at h
      | cons b rest' => simp [swap_adjacent, spec_swap, List.set]
    | succ j =>
      have hj : j + 1 < rest.length := by simpa using h
      have := ih j hj
      simp only [swap_adjacent, spec_swap] at this ⊢
      simpa [List.set, List.getD_cons_succ, List.take_succ_cons, List.drop_succ_cons] using this

lemma swap_adjacent_length (t : Call) (i : Nat) :
    (swap_adjacent t i).length = t.length := by
  simp [swap_adjacent]

lemma swap_adjacent_involutive (t : Call) (i : Nat) (h : i + 1 < t.length) :
    swap_adjacent (swap_adjacent t i) i = t := by
  induction t generalizing i with
  | nil => simp at h
  | cons a rest ih =>
    cases i with
    | zero =>
      cases rest with
      | nil => simp at h
      | cons b rest' => simp [swap_adjacent, List.set]
    | succ j =>
      have hj : j + 1 < rest.length := by simpa using h
      have := ih j hj
      simp only [swap_adjacent] at this ⊢
      simpa [List.set, List.getD_cons_succ] using this

/-- **C1.** For distinct, non-empty callsigns, `is_bust` agrees with the
three-rule reference definition written from the spec, and `is_bust` is
irreflexive. -/
theorem is_bust_matches_reference (t c : Call) (ht : t ≠ []) (hc : c ≠ []) (hne : t ≠ c) :
    is_bust t c = spec_bust t c ∧ is_bust t t = false := by
  refine ⟨?_, by unfold is_bust; rw [if_pos rfl]⟩
  simp only [is_bust, spec_bust]
  rw [if_neg hne]
  by_cases h2 : 2 ≤ ((t.length : Int) - (c.length : Int)).natAbs
  · rw [if_pos h2, if_pos h2]
  · rw [if_neg h2, if_neg h2]
    by_cases h1 : ((t.length : Int) - (c.length : Int)).natAbs = 1
    · have hud : t.length ≠ c.length := by omega
      rw [if_pos h1, if_pos hud]
      congr 1
      rw [any_range'_interior]
      congr 1
      funext posn
      rw [List.eraseIdx_eq_take_drop_succ]
    · have hlen : t.length = c.length := by omega
      have hnud : ¬ t.length ≠ c.length := not_not_intro hlen
      rw [if_neg h1, if_neg hnud]
      by_cases hcnt : (t.zip c).countP (fun pr => decide (pr.1 ≠ pr.2)) = 1
      · rw [if_pos hcnt, decide_eq_true hcnt, Bool.true_or]
      · rw [if_neg hcnt, decide_eq_false hcnt, Bool.false_or]
        rw [Bool.eq_iff_iff, List.any_eq_true, List.any_eq_true]
        constructor
        · rintro ⟨i, hi, hf⟩
          rw [List.mem_range] at hi
          simp only [decide_eq_true_eq] at hf
          have hi' : i + 1 < t.length := by omega
          refine ⟨i, by rw [List.mem_range]; omega, ?_⟩
          simp only [Bool.and_eq_true, decide_eq_true_eq]
          exact ⟨hi', by rw [← swap_adjacent_eq_spec_swap t i hi']; exact hf⟩
        · rintro ⟨i, hi, hf⟩
          simp only [Bool.and_eq_true, decide_eq_true_eq] at hf
          obtain ⟨hi', hsw⟩ := hf
          refine ⟨i, by rw [List.mem_range]; omega, ?_⟩
          simp only [decide_eq_true_eq]
          rw [swap_adjacent_eq_spec_swap t i hi']
          exact hsw

/-- Witness for `is_bust_matches_reference` at the concrete pair
`("N7DR", "N7RD")` from the spec's scenario 3. -/
theorem is_bust_matches_reference_witness :
    (['N', '7', 'D', 'R'] ≠ ([] : Call) ∧ ['N', '7', 'R', 'D'] ≠ ([] : Call) ∧
        ['N', '7', 'D', 'R'] ≠ ['N', '7', 'R', 'D']) ∧
      (is_bust ['N', '7', 'D', 'R'] ['N', '7', 'R', 'D']
          = spec_bust ['N', '7', 'D', 'R'] ['N', '7', 'R', 'D'] ∧
        is_bust ['N', '7', 'D', 'R'] ['N', '7', 'D', 'R'] = false) :=
  ⟨⟨by decide, by decide, by decide⟩,
    is_bust_matches_reference _ _ (by decide) (by decide) (by decide)⟩

lemma countP_zip_ne_comm (a b : Call) :
    (a.zip b).countP (fun pr => decide (pr.1 ≠ pr.2))
      = (b.zip a).countP (fun pr => decide (pr.1 ≠ pr.2)) := by
  rw [← List.zip_swap a b, List.countP_map]
  apply List.countP_congr
  intro pr _
  simp only [Function.comp_apply, Prod.fst_swap, Prod.snd_swap, decide_eq_true_eq]
  exact ne_comm

/-- **C2.** The bust relation computed by `is_bust` is symmetric. -/
theorem is_bust_symm (a b : Call) : is_bust a b = is_bust b a := by
  by_cases hab : a = b
  · rw [hab]
  · have hba : b ≠ a := fun h => hab h.symm
    unfold is_bust
    rw [if_neg hab, if_neg hba]
    have habs : ((a.length : Int) - (b.length : Int)).natAbs
        = ((b.length : Int) - (a.length : Int)).natAbs := by omega
    rw [← habs]
    by_cases h2 : 2 ≤ ((a.length : Int) - (b.length : Int)).natAbs
    · rw [if_pos h2, if_pos h2]
    · rw [if_neg h2, if_neg h2]
      by_cases h1 : ((a.length : Int) - (b.length : Int)).natAbs = 1
      · rw [if_pos h1, if_pos h1]
        rcases Nat.lt_or_ge a.length b.length with hlt | hge
        · have h1' : ¬ b.length < a.length := by omega
          simp only [if_pos hlt, if_neg h1']
        · have hlt' : b.length < a.length := by omega
          have h1' : ¬ a.length < b.length := by omega
          simp only [if_pos hlt', if_neg h1']
      · rw [if_neg h1, if_neg h1]
        have hlen : a.length = b.length := by omega
        rw [countP_zip_ne_comm b a]
        by_cases hcnt : (a.zip b).countP (fun pr => decide (pr.1 ≠ pr.2)) = 1
        · rw [if_pos hcnt, if_pos hcnt]
        · rw [if_neg hcnt, if_neg hcnt]
          rw [Bool.eq_iff_iff, List.any_eq_true, List.any_eq_true]
          constructor
          · rintro ⟨i, hi, hf⟩
            rw [List.mem_range] at hi
            simp only [decide_eq_true_eq] at hf
            have hi' : i + 1 < a.length := by omega
            refine ⟨i, by rw [List.mem_range]; omega, ?_⟩
            simp only [decide_eq_true_eq]
            rw [← hf, swap_adjacent_involutive a i hi']
          · rintro ⟨i, hi, hf⟩
            rw [List.mem_range] at hi
            simp only [decide_eq_true_eq] at hf
            have hi' : i + 1 < b.length := by omega
            refine ⟨i, by rw [List.mem_range]; omega, ?_⟩
            simp only [decide_eq_true_eq]
            rw [← hf, swap_adjacent_involutive b i hi']

/-- The contest bands (drscp.h `HF_BAND`); `BAD` is the sentinel value. -/
inductive HF_BAND
  | B160
  | B80
  | B40
  | B20
  | B15
  | B10
  | BAD
deriving DecidableEq, Repr, Fintype

/-- Minimal data about a logged QSO (drscp.h `small_qso`).  The default values
are those of the default constructor (the sentinel "empty" QSO produced on a
parse error, recognisable by its empty `tcall`). -/
structure small_qso where
  tcall : Call := []
  rcall : Call := []
  band : HF_BAND := HF_BAND.BAD
  qrg : Int := 0
  time : Int := 0
  rel_mins : Int := 0
  id : Int := 0
deriving DecidableEq, Repr

/-- `small_qso::operator<` (drscp.h lines 192-194): comparison is on `_time`
alone. -/
def qso_lt (a b : small_qso) : Bool := decide (a.time < b.time)

/-- The "not greater" relation induced by `small_qso::operator<`: `a` may come
before `b` in a vector sorted with `operator<` iff `¬(b < a)`. -/
def qso_le (a b : small_qso) : Prop := qso_lt b a = false

instance : DecidableRel qso_le := fun a b => by unfold qso_le; infer_instance

instance : IsTotal small_qso qso_le :=
  ⟨fun a b => by
    unfold qso_le qso_lt
    simp only [decide_eq_false_iff_not, Int.not_lt]
    omega⟩

instance : IsTrans small_qso qso_le :=
  ⟨fun a b c hab hbc => by
    unfold qso_le qso_lt at hab hbc ⊢
    simp only [decide_eq_false_iff_not, Int.not_lt] at hab hbc ⊢
    omega⟩

/-- `SORT(rv)` on a QSO vector: `std::sort` with `small_qso::operator<`.
Modelled as a sort over the induced "not greater" relation; the order of
time-ties is unspecified in the C++ (unstable sort) and is fixed here by the
insertion sort. -/
def sort_qsos (v : List small_qso) : List small_qso :=
  v.insertionSort qso_le

/-- `build_vec` (drscp.cpp lines 322-340): flatten the per-sender map into a
single vector and put it into chronological order. -/
def build_vec (m : List (Call × List small_qso)) : List small_qso :=
  sort_qsos (m.flatMap (·.2))

/-- Values associated with a contest (drscp.h `contest_parameters`), without
the directory path. -/
structure contest_parameters where
  t_start : Int
  hours : Int
  t_end : Int
deriving DecidableEq, Repr

/-- The `contest_parameters` constructor, after parsing: it stores the start
time, the duration in hours, and `_t_end = _t_start + hours * 3600`. -/
def contest_parameters.make (tStart hours : Int) : contest_parameters :=
  { t_start := tStart, hours := hours, t_end := tStart + hours * 3600 }

/-- `contest_parameters::in_contest_period` (drscp.h lines 309-310):
`t >= _t_start and t < _t_end`. -/
def contest_parameters.in_contest_period (cp : contest_parameters) (t : Int) : Bool :=
  decide (cp.t_start ≤ t) && decide (t < cp.t_end)

/-- `band_from_qrg` (drscp.cpp lines 989-1009).  The thrown exception for a
frequency outside every contest band is modelled as `none`. -/
def band_from_qrg (qrg : Int) : Option HF_BAND :=
  if 1800 ≤ qrg ∧ qrg ≤ 2000 then some HF_BAND.B160
  else if 3500 ≤ qrg ∧ qrg ≤ 4000 then some HF_BAND.B80
  else if 7000 ≤ qrg ∧ qrg ≤ 7300 then some HF_BAND.B40
  else if 14000 ≤ qrg ∧ qrg ≤ 14350 then some HF_BAND.B20
  else if 21000 ≤ qrg ∧ qrg ≤ 21450 then some HF_BAND.B15
  else if 28000 ≤ qrg ∧ qrg ≤ 29700 then some HF_BAND.B10
  else none

/-- The inclusive contest-band ranges of the spec's table (§4.2). -/
def in_band_range (b : HF_BAND) (qrg : Int) : Prop :=
  match b with
  | HF_BAND.B160 => 1800 ≤ qrg ∧ qrg ≤ 2000
  | HF_BAND.B80 => 3500 ≤ qrg ∧ qrg ≤ 4000
  | HF_BAND.B40 => 7000 ≤ qrg ∧ qrg ≤ 7300
  | HF_BAND.B20 => 14000 ≤ qrg ∧ qrg ≤ 14350
  | HF_BAND.B15 => 21000 ≤ qrg ∧ qrg ≤ 21450
  | HF_BAND.B10 => 28000 ≤ qrg ∧ qrg ≤ 29700
  | HF_BAND.BAD => False

instance (b : HF_BAND) (qrg : Int) : Decidable (in_band_range b qrg) := by
  cases b <;> simp only [in_band_range] <;> infer_instance

/-- **C6.** `band_from_qrg` maps every frequency inside one of the six
inclusive band ranges to that band (in particular band edges such as 7300),
and signals the domain exception (`none`) for every frequency outside all six
ranges. -/
theorem band_from_qrg_correct (qrg : Int) :
    (∀ b : HF_BAND, in_band_range b qrg → band_from_qrg qrg = some b) ∧
      ((∀ b : HF_BAND, ¬ in_band_range b qrg) → band_from_qrg qrg = none) := by
  constructor
  · intro b hb
    cases b <;> simp only [in_band_range] at hb <;>
      · simp only [band_from_qrg]
        split_ifs <;> first | rfl | (exfalso; omega)
  · intro hall
    have h160 := hall HF_BAND.B160
    have h80 := hall HF_BAND.B80
    have h40 := hall HF_BAND.B40
    have h20 := hall HF_BAND.B20
    have h15 := hall HF_BAND.B15
    have h10 := hall HF_BAND.B10
    simp only [in_band_range] at h160 h80 h40 h20 h15 h10
    simp only [band_from_qrg]
    split_ifs <;> first | rfl | (exfalso; omega)

/-- Witness for `band_from_qrg_correct`: the band edge 7300 lies in the 40 m
range and is assigned to it, and 7301 lies in no range and raises. -/
theorem band_from_qrg_correct_witness :
    (in_band_range HF_BAND.B40 7300 ∧ band_from_qrg 7300 = some HF_BAND.B40) ∧
      ((∀ b : HF_BAND, ¬ in_band_range b 7301) ∧ band_from_qrg 7301 = none) :=
  ⟨⟨by decide, (band_from_qrg_correct 7300).1 HF_BAND.B40 (by decide)⟩,
    ⟨by decide, (band_from_qrg_correct 7301).2 (by decide)⟩⟩

/-- The characters legal in a callsign (drscp.cpp line 718). -/
def LEGAL_CALL_CHARS : List Char := "ABCDEFGHIJKLMNOPQRSTUVWXYZ1234567890/".toList

/-- Modelled from the spec: `remove_from_end` (declared in string_functions.h,
whose implementation is not among the provided sources) strips a trailing
suffix from a string when the string ends with it ("trailing `/QRP` and
`/QRPP` suffixes are stripped", §4.2). -/
def remove_from_end (s suffix : Call) : Call :=
  if suffix <:+ s then s.take (s.length - suffix.length) else s

/-- The per-QSO acceptance chain of the ingest loop in `process_directory`
(drscp.cpp lines 727-756): reject a QSO outside the contest period, set its
relative minutes, reject the parse-failure sentinel (empty `tcall`), strip
`/QRP` and `/QRPP` from both calls, then reject short calls, calls with
illegal characters, and self-QSOs. -/
def accept_qso (cp : contest_parameters) (q : small_qso) : Option small_qso :=
  if !cp.in_contest_period q.time then none
  else
    let q1 := { q with rel_mins := (q.time - cp.t_start) / 60 }
    if q1.tcall = [] then none
    else
      let qt := remove_from_end (remove_from_end q1.tcall "/QRP".toList) "/QRPP".toList
      let qr := remove_from_end (remove_from_end q1.rcall "/QRP".toList) "/QRPP".toList
      let q2 := { q1 with tcall := qt, rcall := qr }
      if q2.tcall.length < 3 ∨ q2.rcall.length < 3 then none
      else if q2.tcall.any (fun ch => !LEGAL_CALL_CHARS.contains ch)
          || q2.rcall.any (fun ch => !LEGAL_CALL_CHARS.contains ch) then none
      else if q2.tcall = q2.rcall then none
      else some q2

/-- **C5.** The contest window is half-open: a QSO at exactly `t_start` is
in-contest, a QSO at exactly `t_start + hours * 3600` is out, and every QSO
retained by the ingest loop has its UTC time inside the window. -/
theorem contest_window_half_open (tStart hours : Int) (hh : 0 < hours) :
    ((contest_parameters.make tStart hours).in_contest_period tStart = true) ∧
      ((contest_parameters.make tStart hours).in_contest_period (tStart + hours * 3600) = false) ∧
      (∀ q q' : small_qso, accept_qso (contest_parameters.make tStart hours) q = some q' →
        tStart ≤ q.time ∧ q.time < tStart + hours * 3600) := by
  refine ⟨?_, ?_, ?_⟩
  · simp only [contest_parameters.make, contest_parameters.in_contest_period,
      Bool.and_eq_true, decide_eq_true_eq]
    omega
  · simp only [contest_parameters.make, contest_parameters.in_contest_period,
      Bool.and_eq_true, decide_eq_true_eq, Bool.and_eq_false_iff, decide_eq_false_iff_not]
    omega
  · intro q q' h
    by_cases hic : (contest_parameters.make tStart hours).in_contest_period q.time
    · simp only [contest_parameters.make, contest_parameters.in_contest_period,
        Bool.and_eq_true, decide_eq_true_eq] at hic
      omega
    · rw [accept_qso, if_pos (by simp [hic])] at h
      exact absurd h (by simp)

/-- Witness for `contest_window_half_open` at a concrete 48-hour contest and a
concrete in-window QSO. -/
theorem contest_window_half_open_witness :
    (0 : Int) < 48 ∧
      ((contest_parameters.make 1000 48).in_contest_period 1000 = true) ∧
      ((contest_parameters.make 1000 48).in_contest_period (1000 + 48 * 3600) = false) ∧
      (∀ q q' : small_qso, accept_qso (contest_parameters.make 1000 48) q = some q' →
        1000 ≤ q.time ∧ q.time < 1000 + 48 * 3600) :=
  ⟨by decide, contest_window_half_open 1000 48 (by decide)⟩

/-- The claim's reference ordering for C8: time, then id. -/
def claimed_qso_lt (a b : small_qso) : Prop :=
  a.time < b.time ∨ (a.time = b.time ∧ a.id < b.id)

instance (a b : small_qso) : Decidable (claimed_qso_lt a b) := by
  unfold claimed_qso_lt; infer_instance

/-- **C8 counterexample.** Two QSOs with equal times and different ids: the
claimed (time, id) ordering says the first sorts before the second, but
`small_qso::operator<` compares times only and returns false. -/
theorem qso_lt_counterexample :
    ¬ (qso_lt { time := 5, id := 1 } { time := 5, id := 2 }
        = true ↔ claimed_qso_lt { time := 5, id := 1 } { time := 5, id := 2 }) := by
  decide

/-- **C8 (amended).** QSO records are ordered by time alone (`operator<`
compares `_time` only; the id is not a tie-break), and every chronological
vector built by `build_vec` is sorted by nondecreasing time. -/
theorem qso_order_by_time :
    (∀ a b : small_qso, qso_lt a b = true ↔ a.time < b.time) ∧
      (∀ m : List (Call × List small_qso),
        (build_vec m).Sorted (fun x y : small_qso => x.time ≤ y.time)) := by
  constructor
  · intro a b
    simp [qso_lt]
  · intro m
    have h := List.sorted_insertionSort qso_le (m.flatMap (·.2))
    exact h.imp (fun {a b} hab => by
      simpa only [qso_le, qso_lt, decide_eq_false_iff_not, Int.not_lt] using hab)

/-- The exit-code skeleton of `main` (drscp.cpp): every configuration check
failure (`-dir` missing, bad `@`-file, malformed contest line, nonexistent
directory) and the ingest failure inside `process_directory` (no valid logs)
call `exit(-1)`; the final statement of a successful run is `return 1`
(drscp.cpp line 240). -/
def main_exit_code (dirPresent configOk ingestOk : Bool) : Int :=
  if !dirPresent then -1
  else if !configOk then -1
  else if !ingestOk then -1
  else 1

/-- **C9 counterexample.** On a fully successful run `main` returns 1, not
0. -/
theorem main_exit_code_counterexample : ¬ main_exit_code true true true = 0 := by
  decide

/-- **C9 (amended).** The exit code is 1 (non-zero) on a successful run and
-1 (reported as 255) on configuration or ingest errors; it is never 0. -/
theorem main_exit_code_values (d c i : Bool) :
    main_exit_code d c i = (if d && c && i then 1 else -1) ∧ main_exit_code d c i ≠ 0 := by
  cases d <;> cases c <;> cases i <;> exact ⟨by decide, by decide⟩

/-- Maximum permitted clock skew when comparing logs, in minutes (drscp.cpp
line 70). -/
def CLOCK_SKEW : Int := 2

/-- Maximum permitted frequency skew when comparing logs, in kHz (drscp.cpp
line 71). -/
def FREQ_SKEW : Int := 2

/-- Half-width of the time range used when looking for a run, in minutes
(drscp.cpp line 72). -/
def RUN_TIME_RANGE : Int := 5

/-- The integer loop `for (m = lo; m <= hi; ++m)` rendered as the list of
visited values. -/
def int_range (lo hi : Int) : List Int :=
  (List.range (hi + 1 - lo).toNat).map (fun k => lo + k)

/-- One entry of the `time_map` array (drscp.cpp lines 359-379): the index of
the first element of the chronologically-sorted vector whose relative minutes
are at least `m` (the `lower_bound`), or the vector length when there is
none. -/
def time_map_idx (vec : List small_qso) (m : Int) : Nat :=
  vec.findIdx (fun qso => decide (m ≤ qso.rel_mins))

/-- The iterator range `[time_map.at(lo), time_map.at(hi + 1))` over a sorted
QSO vector: the QSOs with relative minutes in `[lo, hi]`. -/
def minute_window (vec : List small_qso) (lo hi : Int) : List small_qso :=
  (vec.take (time_map_idx vec (hi + 1))).drop (time_map_idx vec lo)

/-- The `frequency_match` lambda of `process_band` (drscp.cpp lines 408-419):
with `dflt` (the lenient mode) any participant without usable frequency
information counts as a match; without it both participants must have some
frequency information and the frequencies must agree to within `FREQ_SKEW`
(the commented-out poor-frequency test of the strict mode is omitted, as in
the source). -/
def frequency_match (noFreq poorFreq : List Call) (qso1 qso2 : small_qso) (dflt : Bool) :
    Bool :=
  if dflt then
    noFreq.contains qso1.tcall || noFreq.contains qso2.tcall ||
      poorFreq.contains qso1.tcall || poorFreq.contains qso2.tcall ||
      decide (((qso1.qrg - qso2.qrg).natAbs : Int) ≤ FREQ_SKEW)
  else
    (!noFreq.contains qso1.tcall && !noFreq.contains qso2.tcall) &&
      decide (((qso1.qrg - qso2.qrg).natAbs : Int) ≤ FREQ_SKEW)

/-- `get_bounds` (drscp.cpp lines 1057-1065): the subrange of a
chronologically-ordered vector whose relative minutes lie in
`[max(t - skew, t_min), min(t + skew, t_max)]`, located by binary search
(`lower_bound` / `upper_bound`, here rendered as first-index searches). -/
def get_bounds (targetMinutes minimumMinutes maximumMinutes allowedSkew : Int)
    (vec : List small_qso) : List small_qso :=
  let lowerTargetMinutes := max (targetMinutes - allowedSkew) minimumMinutes
  let upperTargetMinutes := min (targetMinutes + allowedSkew) maximumMinutes
  let lb := vec.findIdx (fun qso => decide (lowerTargetMinutes ≤ qso.rel_mins))
  let ub := vec.findIdx (fun qso => decide (upperTargetMinutes < qso.rel_mins))
  (vec.take ub).drop lb

/-- `call_has_good_freq_info` (drscp.h lines 212-213). -/
def call_has_good_freq_info (call : Call) (noFreq poorFreq : List Call) : Bool :=
  !noFreq.contains call && !poorFreq.contains call

/-- Lookup in a per-sender association map (`unordered_map::at` /
`unordered_map::find`); the default is never reached at call sites where the
C++ uses `.at`. -/
def lookup_qsos (m : List (Call × List small_qso)) (call : Call) : List small_qso :=
  ((m.find? (fun pr => decide (pr.1 = call))).map (·.2)).getD []

/-- `is_stn_running` (drscp.cpp lines 1026-1047): a station is running at a
time and frequency iff it is an entrant and either (good frequency info) its
own log has a QSO within `CLOCK_SKEW` minutes and `FREQ_SKEW` kHz, or (no
usable frequency info) some other entrant - not the ignored caller - logged a
QSO with it within `CLOCK_SKEW` minutes and `FREQ_SKEW` kHz. -/
def is_stn_running (call : Call) (relMins qrg : Int) (tcallList : List Call)
    (noFreq poorFreq : List Call) (allQsosThisBand : List (Call × List small_qso))
    (allVec : List small_qso) (minimumMinutes maximumMinutes : Int) (ignoreCall : Call) :
    Bool :=
  if !tcallList.contains call then false
  else if call_has_good_freq_info call noFreq poorFreq then
    (get_bounds relMins minimumMinutes maximumMinutes CLOCK_SKEW
        (lookup_qsos allQsosThisBand call)).any
      (fun qso => decide (((qrg - qso.qrg).natAbs : Int) ≤ FREQ_SKEW))
  else
    (minute_window allVec (max (relMins - CLOCK_SKEW) minimumMinutes)
        (min (relMins + CLOCK_SKEW) maximumMinutes)).any
      (fun qso => decide (qso.tcall ≠ ignoreCall) && decide (qso.rcall = call) &&
        decide (((qrg - qso.qrg).natAbs : Int) ≤ FREQ_SKEW))

/-- The marking condition of Pass A of `process_band` (drscp.cpp lines
428-456): a pruned QSO in minute `m` is marked iff some QSO of the full band
log within `CLOCK_SKEW` minutes matches in frequency (lenient mode) and either
the other side logged the reverse contact correctly while this side busted
them, or both sides busted each other. -/
def pass_a_mark (noFreq poorFreq : List Call) (allVec : List small_qso) (maxRelMins : Int)
    (targetRelMins : Int) (rqso : small_qso) : Bool :=
  (minute_window allVec (max (targetRelMins - CLOCK_SKEW) 0)
      (min (targetRelMins + CLOCK_SKEW) maxRelMins)).any
    (fun tqso => frequency_match noFreq poorFreq tqso rqso true &&
      ((is_bust tqso.tcall rqso.rcall && decide (tqso.rcall = rqso.tcall)) ||
        (is_bust rqso.tcall tqso.rcall && is_bust tqso.tcall rqso.rcall)))

/-- Pass A of `process_band`: iterate over the minutes of the contest, mark
the pruned QSOs of each minute that match `pass_a_mark`, then erase the marked
ids. -/
def pass_a (noFreq poorFreq : List Call) (allVec : List small_qso)
    (maxRelMins : Int) (prunedVec : List small_qso) : List small_qso :=
  let ids := (int_range 0 maxRelMins).flatMap (fun m =>
    ((minute_window prunedVec m m).filter
        (pass_a_mark noFreq poorFreq allVec maxRelMins m)).map (·.id))
  prunedVec.filter (fun qso => !ids.contains qso.id)

/-- Pass B of `process_band` (drscp.cpp lines 482-518): mark each surviving
QSO whose received call is a bust of an entrant that was running at that time
and frequency, then erase the marked ids. -/
def pass_b (allTcalls noFreq poorFreq : List Call)
    (allQsosThisBand : List (Call × List small_qso)) (allVec : List small_qso)
    (maxRelMins : Int) (prunedVec : List small_qso) : List small_qso :=
  let ids := (prunedVec.filter (fun qso => allTcalls.any (fun tcall =>
      is_bust tcall qso.rcall &&
        is_stn_running tcall qso.rel_mins qso.qrg allTcalls noFreq poorFreq
          allQsosThisBand allVec 0 maxRelMins qso.tcall))).map (·.id)
  prunedVec.filter (fun qso => !ids.contains qso.id)

/-- The per-received-call pseudo-log of Pass C (drscp.cpp lines 545-553): the
surviving QSOs whose received call is `rcall`, sorted chronologically. -/
def rcall_log (prunedVec : List small_qso) (rcall : Call) : List small_qso :=
  sort_qsos (prunedVec.filter (fun qso => decide (qso.rcall = rcall)))

/-- The entry of the `possible_busts` map (drscp.h lines 221-240) for one
call: all the other calls of the collection that are busts of it.  The C++
builds the map over unordered pairs and inserts both directions; since the
bust relation is symmetric, the entry for `call` is exactly this filter. -/
def possible_busts (calls : List Call) (call : Call) : List Call :=
  calls.filter (fun other => decide (other ≠ call) && is_bust call other)

/-- Pass C of `process_band` (drscp.cpp lines 536-665): for each surviving
received call, combine its pseudo-log with those of its possible busts, and
mark each of its QSOs that has, within `RUN_TIME_RANGE` minutes in the
combined log, a QSO with a different received call matching in frequency
(strict mode); then erase the marked ids.  The source iterates the received
calls in descending histogram order; the marked set does not depend on that
order, so the iteration is modelled over the deduplicated received calls. -/
def pass_c (noFreq poorFreq : List Call) (maxRelMins : Int)
    (prunedVec : List small_qso) : List small_qso :=
  let rcalls := (prunedVec.map (·.rcall)).dedup
  let ids := rcalls.flatMap (fun rcall =>
    let log_of_rcall_and_busts :=
      sort_qsos (rcall_log prunedVec rcall ++
        (possible_busts rcalls rcall).flatMap (rcall_log prunedVec))
    ((rcall_log prunedVec rcall).filter (fun rqso =>
      (get_bounds rqso.rel_mins 0 maxRelMins RUN_TIME_RANGE log_of_rcall_and_busts).any
        (fun qso => decide (qso.rcall ≠ rcall) &&
          frequency_match noFreq poorFreq qso rqso false))).map (·.id))
  prunedVec.filter (fun qso => !ids.contains qso.id)

/-- Pass D of `process_band` (drscp.cpp lines 670-690): recompute the
per-received-call histogram over the surviving QSOs and erase every QSO whose
received call appears at most `cutoffLimit` times (`count <= CUTOFF_LIMIT`). -/
def pass_d (cutoffLimit : Int) (prunedVec : List small_qso) : List small_qso :=
  prunedVec.filter (fun qso =>
    !decide ((prunedVec.countP (fun q => decide (q.rcall = qso.rcall)) : Int) ≤ cutoffLimit))

/-- The surviving QSO vector of `process_band` after passes A, B and C,
before the cutoff pass. -/
def process_band_stage_c (prunedQsosThisBand allQsosThisBand : List (Call × List small_qso))
    (noFreq poorFreq : List Call) (maxRelMins : Int) : List small_qso :=
  let prunedVec := build_vec prunedQsosThisBand
  let allVec := build_vec allQsosThisBand
  let allTcalls := allQsosThisBand.map (·.1)
  pass_c noFreq poorFreq maxRelMins
    (pass_b allTcalls noFreq poorFreq allQsosThisBand allVec maxRelMins
      (pass_a noFreq poorFreq allVec maxRelMins prunedVec))

/-- The surviving QSO vector of `process_band` after all four passes. -/
def process_band_vec (cutoffLimit : Int)
    (prunedQsosThisBand allQsosThisBand : List (Call × List small_qso))
    (noFreq poorFreq : List Call) (maxRelMins : Int) : List small_qso :=
  pass_d cutoffLimit
    (process_band_stage_c prunedQsosThisBand allQsosThisBand noFreq poorFreq maxRelMins)

/-- `process_band` (drscp.cpp lines 389-703): the set of received calls of
the QSOs surviving all four passes. -/
def process_band (cutoffLimit : Int)
    (prunedQsosThisBand allQsosThisBand : List (Call × List small_qso))
    (noFreq poorFreq : List Call) (maxRelMins : Int) : List Call :=
  ((process_band_vec cutoffLimit prunedQsosThisBand allQsosThisBand noFreq poorFreq
      maxRelMins).map (·.rcall)).dedup

lemma pass_d_not_mem (cutoffLimit : Int) (v : List small_qso) (qso : small_qso)
    (hc : (v.countP (fun q => decide (q.rcall = qso.rcall)) : Int) ≤ cutoffLimit) :
    qso ∉ pass_d cutoffLimit v := by
  intro hmem
  simp only [pass_d, List.mem_filter, Bool.not_eq_true', decide_eq_false_iff_not] at hmem
  exact hmem.2 hc

lemma pass_d_countP (cutoffLimit : Int) (v : List small_qso) (call : Call)
    (hc : call ∈ (pass_d cutoffLimit v).map (·.rcall)) :
    cutoffLimit + 1 ≤
      ((pass_d cutoffLimit v).countP (fun q => decide (q.rcall = call)) : Int) := by
  obtain ⟨qso, hq, rfl⟩ := List.mem_map.mp hc
  simp only [pass_d, List.mem_filter, Bool.not_eq_true', decide_eq_false_iff_not] at hq
  obtain ⟨hqv, hcount⟩ := hq
  have hcount' : cutoffLimit + 1 ≤
      (v.countP (fun q => decide (q.rcall = qso.rcall)) : Int) := by omega
  have heq : (pass_d cutoffLimit v).countP (fun q => decide (q.rcall = qso.rcall))
      = v.countP (fun q => decide (q.rcall = qso.rcall)) := by
    rw [pass_d, List.countP_filter]
    apply List.countP_congr
    intro a _
    simp only [Bool.and_eq_true, decide_eq_true_eq, Bool.not_eq_true',
      decide_eq_false_iff_not]
    constructor
    · rintro ⟨ha, -⟩
      exact ha
    · intro ha
      refine ⟨ha, ?_⟩
      rw [ha]
      exact hcount
  rw [heq]
  exact hcount'

/-- **C3.** After pass D recomputes the per-received-call histogram, every QSO
whose received call occurs at most `cutoffLimit` times is dropped (the
comparison is `≤`, not `<`), so every call returned by `process_band` has at
least `cutoffLimit + 1` surviving QSOs on that band. -/
theorem process_band_cutoff (cutoffLimit : Int)
    (prunedQsosThisBand allQsosThisBand : List (Call × List small_qso))
    (noFreq poorFreq : List Call) (maxRelMins : Int) :
    (∀ qso : small_qso,
        ((process_band_stage_c prunedQsosThisBand allQsosThisBand noFreq poorFreq
            maxRelMins).countP (fun q => decide (q.rcall = qso.rcall)) : Int) ≤ cutoffLimit →
          qso ∉ process_band_vec cutoffLimit prunedQsosThisBand allQsosThisBand noFreq
            poorFreq maxRelMins) ∧
      (∀ call ∈ process_band cutoffLimit prunedQsosThisBand allQsosThisBand noFreq poorFreq
          maxRelMins,
        cutoffLimit + 1 ≤
          ((process_band_vec cutoffLimit prunedQsosThisBand allQsosThisBand noFreq poorFreq
              maxRelMins).countP (fun q => decide (q.rcall = call)) : Int)) := by
  constructor
  · intro qso hc
    exact pass_d_not_mem cutoffLimit _ qso hc
  · intro call hc
    apply pass_d_countP
    simpa only [process_band, process_band_vec, List.mem_dedup] using hc

/-- Concrete band data for the cutoff witness: one entrant log with two QSOs
receiving the same call. -/
def c3_example_band : List (Call × List small_qso) :=
  [(['K', '1', 'A', 'B'],
    [{ tcall := ['K', '1', 'A', 'B'], rcall := ['W', '9', 'X', 'Y', 'Z'],
       band := HF_BAND.B20, qrg := 14050, time := 600, rel_mins := 10, id := 1 },
     { tcall := ['K', '1', 'A', 'B'], rcall := ['W', '9', 'X', 'Y', 'Z'],
       band := HF_BAND.B20, qrg := 14050, time := 660, rel_mins := 11, id := 2 }])]

/-- Witness for `process_band_cutoff`: with `cutoffLimit = 1`, a call received
twice survives pass D and has two surviving QSOs. -/
theorem process_band_cutoff_witness :
    (['W', '9', 'X', 'Y', 'Z'] ∈ process_band 1 c3_example_band c3_example_band [] [] 20) ∧
      (1 + 1 ≤ ((process_band_vec 1 c3_example_band c3_example_band [] [] 20).countP
          (fun q => decide (q.rcall = ['W', '9', 'X', 'Y', 'Z'])) : Int)) :=
  ⟨by decide,
    (process_band_cutoff 1 c3_example_band c3_example_band [] [] 20).2 _ (by decide)⟩

/-- The descending walk of the top-percent computation.  Modelled from the
spec: accumulate counts from the most frequent down and return the count at
which at least the target mass is reached. -/
def value_line_walk : List Int → Int → Int → Int
  | [], _, _ => 0
  | v :: rest, target, acc => if target ≤ acc + v then v else value_line_walk rest target (acc + v)

/-- Modelled from the spec: `value_line` (declared in string_functions.h; its
implementation is not among the provided sources) computes the appearance
threshold for `-xpc`: the count such that keeping every call appearing at
least that often retains at least `pc`% of the total count mass, never
splitting a tie (§4.8 and the README note on `-xpc`). -/
def value_line (values : List Int) (pc : Int) : Int :=
  let total := values.sum
  let target := (total * pc + 99) / 100
  value_line_walk ((values.insertionSort (· ≤ ·)).reverse) target 0

/-- The output-pruning step of `main` (drscp.cpp lines 224-232): when
`PC_OUTPUT` is not 100, erase every accumulated call whose count is below
`value_line`; otherwise the map is left untouched. -/
def prune_output (xscpCalls : List (Call × Int)) (pcOutput : Int) : List (Call × Int) :=
  if pcOutput ≠ 100 then
    xscpCalls.filter (fun pr => !decide (pr.2 < value_line (xscpCalls.map (·.2)) pcOutput))
  else xscpCalls

/-- The SCP output of `main` (drscp.cpp line 238): one call per line. -/
def scp_output_calls (xscpCalls : List (Call × Int)) (pcOutput : Int) : List Call :=
  (prune_output xscpCalls pcOutput).map (·.1)

/-- The XSCP output of `main` (drscp.cpp line 236): call and count per
line. -/
def xscp_output_lines (xscpCalls : List (Call × Int)) (pcOutput : Int) : List (Call × Int) :=
  prune_output xscpCalls pcOutput

/-- **C4.** Top-percent truncation is a no-op at `xpc = 100` (so the SCP and
XSCP outputs list exactly the same calls), and for `xpc < 100` retention is
monotone in the count: ties are never split. -/
theorem xpc_truncation (m : List (Call × Int)) (xpc : Int) :
    (scp_output_calls m 100 = (xscp_output_lines m 100).map (·.1) ∧ prune_output m 100 = m) ∧
      (xpc < 100 → ∀ p ∈ prune_output m xpc, ∀ q ∈ m, p.2 ≤ q.2 →
        q ∈ prune_output m xpc) := by
  refine ⟨⟨rfl, by simp [prune_output]⟩, ?_⟩
  intro hx p hp q hq hle
  have hx' : xpc ≠ 100 := by omega
  rw [prune_output, if_pos hx'] at hp ⊢
  rw [List.mem_filter] at hp ⊢
  refine ⟨hq, ?_⟩
  have h2 := hp.2
  simp only [Bool.not_eq_true', decide_eq_false_iff_not, Int.not_lt] at h2 ⊢
  omega

/-- The spec's top-percent scenario 6: counts `{X:100, Y:50, Z:50, W:1}`. -/
def c4_example : List (Call × Int) :=
  [(['X'], 100), (['Y'], 50), (['Z'], 50), (['W'], 1)]

/-- Witness for `xpc_truncation`: with `-xpc 80` the call `Y` with count 50 is
retained, so its tie `Z` (same count) is retained as well. -/
theorem xpc_truncation_witness :
    ((80 : Int) < 100 ∧ (['Y'], (50 : Int)) ∈ prune_output c4_example 80 ∧
        (['Z'], (50 : Int)) ∈ c4_example ∧ (50 : Int) ≤ 50) ∧
      (['Z'], (50 : Int)) ∈ prune_output c4_example 80 :=
  ⟨⟨by decide, by decide, by decide, by decide⟩,
    (xpc_truncation c4_example 80).2 (by decide) (['Y'], 50) (by decide) (['Z'], 50)
      (by decide) (by decide)⟩

/-- Scale the positive rational `num / den` by `2 ^ e`, as a numerator /
denominator pair of naturals. -/
def norm_scale (num den : Nat) (e : Int) : Nat × Nat :=
  if 0 ≤ e then (num * 2 ^ e.toNat, den) else (num, den * 2 ^ (-e).toNat)

/-- Does `num / den * 2 ^ e` lie in the normalised significand range
`[2^23, 2^24)`? -/
def in_norm_range (num den : Nat) (e : Int) : Bool :=
  decide (2 ^ 23 * (norm_scale num den e).2 ≤ (norm_scale num den e).1) &&
    decide ((norm_scale num den e).1 < 2 ^ 24 * (norm_scale num den e).2)

/-- The exponent that scales `num / den` into `[2^23, 2^24)`.  It is unique
when it exists; the search range `[-64, 96]` covers every positive rational
whose numerator and denominator arise from `int`-ranged counts and their
24-bit roundings, consistent with the no-overflow convention of this
embedding. -/
def norm_exp (num den : Nat) : Int :=
  ((int_range (-64) 96).find? (fun e => in_norm_range num den e)).getD 0

/-- Round-to-nearest-even of the positive rational `num / den` to a 24-bit
significand: the exact value of the IEEE-754 `float` nearest to `num / den`,
expressed as a numerator / denominator pair of naturals (overflow and
subnormals do not occur in the ranges used here). -/
def round_float_pos (num den : Nat) : Nat × Nat :=
  let e := norm_exp num den
  let n := (norm_scale num den e).1
  let d := (norm_scale num den e).2
  let q := n / d
  let r2 := 2 * (n % d)
  let rounded := if d < r2 then q + 1 else if r2 < d then q else if q % 2 = 0 then q else q + 1
  if 0 ≤ e then (rounded, 2 ^ e.toNat) else (rounded * 2 ^ (-e).toNat, 1)

/-- The conversion `float(n)` of a count, as an exact rational pair: exact for
counts below `2^24`, rounded to nearest even above. -/
def nat_to_float (n : Nat) : Nat × Nat := if n = 0 then (0, 1) else round_float_pos n 1

/-- The `float` division `float(good) / total` of
`calls_with_unreliable_freq` (drscp.cpp line 973): convert both counts to
`float` and round the exact quotient to the nearest `float`.  The pair is the
exact rational value of the resulting `float`. -/
def float_div (good total : Nat) : Nat × Nat :=
  if total = 0 then (0, 1)
  else
    let g := nat_to_float good
    let t := nat_to_float total
    if g.1 = 0 then (0, 1) else round_float_pos (g.1 * t.2) (g.2 * t.1)

/-- The numerator of the exact value of the `double` literal `0.9`:
`0.9 = 8106479329266893 * 2^-53` in IEEE-754 binary64. -/
def DOUBLE_0_9_NUM : Nat := 8106479329266893

/-- The comparison `good_fraction < 0.9` of `calls_with_unreliable_freq`
(drscp.cpp line 975), with the single-precision arithmetic carried out
exactly: the `float` quotient `p / q`, promoted to `double`, is below the
`double` 0.9 iff `p * 2^53 < 8106479329266893 * q`. -/
def good_fraction_below_0_9 (good total : Nat) : Bool :=
  decide ((float_div good total).1 * 2 ^ 53 < DOUBLE_0_9_NUM * (float_div good total).2)

/-- The `BAND_TIME_FREQ` tuple of `calls_with_unreliable_freq` (drscp.cpp
line 916); the band is recomputed with `band_from_qrg`, whose exception
(impossible for parsed QSOs) is carried as an `Option`. -/
abbrev BAND_TIME_FREQ : Type := Option HF_BAND × Int × Int

/-- The `BAND_TIME_FREQ` of one QSO (drscp.cpp line 929). -/
def band_time_freq (qso : small_qso) : BAND_TIME_FREQ :=
  (band_from_qrg qso.qrg, qso.rel_mins, qso.qrg)

/-- The `worked_by_this_tcall` map of `calls_with_unreliable_freq` (drscp.cpp
lines 922-930), modelled as the list of its (rcall, band-time-freq) pairs: one
pair per QSO whose received call has frequency information and is itself an
entrant (a key of `all_qsos`). -/
def worked_pairs (allQsos : List (Call × List small_qso)) (noFreq : List Call)
    (qsos : List small_qso) : List (Call × BAND_TIME_FREQ) :=
  qsos.filterMap (fun qso =>
    if !noFreq.contains qso.rcall && allQsos.any (fun pr => decide (pr.1 = qso.rcall)) then
      some (qso.rcall, band_time_freq qso)
    else none)

/-- The `worked` index of `calls_with_unreliable_freq` (drscp.cpp lines
918-934): for every sender with frequency information, its cross-index of
worked entrants. -/
def worked (allQsos : List (Call × List small_qso)) (noFreq : List Call) :
    List (Call × List (Call × BAND_TIME_FREQ)) :=
  allQsos.filterMap (fun pr =>
    if noFreq.contains pr.1 then none
    else some (pr.1, worked_pairs allQsos noFreq pr.2))

/-- The total-counting condition (drscp.cpp line 955): the reverse QSO is on
the same band and strictly within `RUN_TIME_RANGE` minutes. -/
def reverse_match (t r : BAND_TIME_FREQ) : Bool :=
  decide (t.1 = r.1) && decide (((t.2.1 - r.2.1).natAbs : Int) < RUN_TIME_RANGE)

/-- The good-counting condition (drscp.cpp line 958): additionally the two
logged frequencies differ by strictly less than `FREQ_SKEW`. -/
def reverse_good (t r : BAND_TIME_FREQ) : Bool :=
  reverse_match t r && decide (((t.2.2 - r.2.2).natAbs : Int) < FREQ_SKEW)

/-- The (forward, reverse) band-time-freq pairs examined for one sender
(drscp.cpp lines 941-963): for each forward entry, the reverse entries under
the sender's own call in the worked data of the peer. -/
def cross_pairs (wk : List (Call × List (Call × BAND_TIME_FREQ))) (tcall : Call)
    (pairs : List (Call × BAND_TIME_FREQ)) : List (BAND_TIME_FREQ × BAND_TIME_FREQ) :=
  pairs.flatMap (fun pr =>
    (((wk.find? (fun w => decide (w.1 = pr.1))).map (·.2)).getD []).filterMap (fun rp =>
      if rp.1 = tcall then some (pr.2, rp.2) else none))

/-- `accumulated_counts` (drscp.cpp lines 939-967): for each sender of the
worked index, the pair (total, good) of cross-check counts. -/
def accumulated_counts (wk : List (Call × List (Call × BAND_TIME_FREQ))) :
    List (Call × (Nat × Nat)) :=
  wk.map (fun pr =>
    (pr.1, ((cross_pairs wk pr.1 pr.2).countP (fun p => reverse_match p.1 p.2),
      (cross_pairs wk pr.1 pr.2).countP (fun p => reverse_good p.1 p.2))))

/-- `calls_with_unreliable_freq` (drscp.cpp lines 913-981): the senders whose
cross-checked counts give `total != 0` and `float(good) / total < 0.9`. -/
def calls_with_unreliable_freq (allQsos : List (Call × List small_qso))
    (noFreq : List Call) : List Call :=
  (accumulated_counts (worked allQsos noFreq)).filterMap (fun pr =>
    if pr.2.1 ≠ 0 && good_fraction_below_0_9 pr.2.2 pr.2.1 then some pr.1 else none)

/-- The spec's enumeration (§4.4) of the reciprocal cross-check QSO pairs of a
sender `a`, before the band/time match: for each QSO of `a` whose received
call `B` has frequency information and is an entrant, each QSO of `B`'s log
received from `a`. -/
def direct_pairs (allQsos : List (Call × List small_qso)) (noFreq : List Call)
    (a : Call) (qsosA : List small_qso) : List (small_qso × small_qso) :=
  qsosA.flatMap (fun qa =>
    if !noFreq.contains qa.rcall && allQsos.any (fun pr => decide (pr.1 = qa.rcall)) then
      (lookup_qsos allQsos qa.rcall).filterMap (fun qb =>
        if qb.rcall = a then some (qa, qb) else none)
    else [])

/-- The reference pairings of the claim: reciprocal cross-check pairs whose
reverse QSO is on the same band and strictly within 5 minutes; these are the
pairings counted in `total`. -/
def spec_freq_pairings (allQsos : List (Call × List small_qso)) (noFreq : List Call)
    (a : Call) : List (small_qso × small_qso) :=
  (direct_pairs allQsos noFreq a (lookup_qsos allQsos a)).filter (fun p =>
    decide (band_from_qrg p.1.qrg = band_from_qrg p.2.qrg) &&
      decide (((p.1.rel_mins - p.2.rel_mins).natAbs : Int) < RUN_TIME_RANGE))

/-- The pairings counted as good: the two logged frequencies differ by
strictly less than 2 kHz. -/
def spec_good_count (allQsos : List (Call × List small_qso)) (noFreq : List Call)
    (a : Call) : Nat :=
  (spec_freq_pairings allQsos noFreq a).countP (fun p =>
    decide (((p.1.qrg - p.2.qrg).natAbs : Int) < FREQ_SKEW))


lemma find_filterMap_worked (A : List (Call × List small_qso)) (noFreq : List Call)
    (l : List (Call × List small_qso)) (k : Call) (hk : noFreq.contains k = false) :
    (l.filterMap (fun pr => if noFreq.contains pr.1 then none
        else some (pr.1, worked_pairs A noFreq pr.2))).find? (fun w => decide (w.1 = k))
      = (l.find? (fun pr => decide (pr.1 = k))).map
          (fun pr => (pr.1, worked_pairs A noFreq pr.2)) := by
  induction l with
  | nil => rfl
  | cons p rest ih =>
    rw [List.filterMap_cons]
    cases hn : noFreq.contains p.1 with
    | true =>
      have hpk : decide (p.1 = k) = false := by
        apply decide_eq_false
        intro h
        rw [h] at hn
        rw [hn] at hk
        cases hk
      simp only [List.find?_cons, hpk, if_true]
      simpa using ih
    | false =>
      cases hpk : decide (p.1 = k) with
      | true => simp [List.find?_cons, hpk]
      | false =>
        simp only [List.find?_cons, hpk, Bool.false_eq_true, if_false]
        simpa using ih

lemma worked_pairs_filter (A : List (Call × List small_qso)) (noFreq : List Call)
    (a : Call) (ha1 : noFreq.contains a = false)
    (ha2 : A.any (fun pr => decide (pr.1 = a)) = true)
    (t : BAND_TIME_FREQ) (log : List small_qso) :
    (worked_pairs A noFreq log).filterMap
        (fun rp => if rp.1 = a then some (t, rp.2) else none)
      = log.filterMap (fun qb => if qb.rcall = a then some (t, band_time_freq qb) else none) := by
  induction log with
  | nil => rfl
  | cons qb rest ih =>
    rw [worked_pairs, List.filterMap_cons]
    rw [show (List.filterMap (fun qso =>
        if !noFreq.contains qso.rcall && A.any (fun pr => decide (pr.1 = qso.rcall)) then
          some (qso.rcall, band_time_freq qso) else none) rest) = worked_pairs A noFreq rest
      from rfl]
    by_cases hr : qb.rcall = a
    · have hg : (!noFreq.contains qb.rcall && A.any (fun pr => decide (pr.1 = qb.rcall))) = true := by
        rw [hr, ha1, ha2]
        rfl
      rw [hg]
      simp only [if_true, ite_true, List.filterMap_cons, hr, if_pos rfl]
      rw [ih]
    · by_cases hg : (!noFreq.contains qb.rcall && A.any (fun pr => decide (pr.1 = qb.rcall))) = true
      · rw [hg]
        simp only [if_true, ite_true, List.filterMap_cons, hr, if_neg hr]
        rw [ih]
      · have hg' : (!noFreq.contains qb.rcall && A.any (fun pr => decide (pr.1 = qb.rcall))) = false :=
          Bool.eq_false_iff.mpr hg
        rw [hg']
        simp only [Bool.false_eq_true, if_false, ite_false]
        rw [ih]
        simp [List.filterMap_cons, hr]

lemma cross_pairs_eq (A : List (Call × List small_qso)) (noFreq : List Call) (a : Call)
    (ha1 : noFreq.contains a = false)
    (ha2 : A.any (fun pr => decide (pr.1 = a)) = true)
    (qsosA : List small_qso) :
    cross_pairs (worked A noFreq) a (worked_pairs A noFreq qsosA)
      = (direct_pairs A noFreq a qsosA).map
          (fun p => (band_time_freq p.1, band_time_freq p.2)) := by
  induction qsosA with
  | nil => rfl
  | cons qa rest ih =>
    rw [worked_pairs, List.filterMap_cons]
    rw [show (List.filterMap (fun qso =>
        if !noFreq.contains qso.rcall && A.any (fun pr => decide (pr.1 = qso.rcall)) then
          some (qso.rcall, band_time_freq qso) else none) rest) = worked_pairs A noFreq rest
      from rfl]
    rw [direct_pairs, List.flatMap_cons]
    rw [show (rest.flatMap (fun qa => if !noFreq.contains qa.rcall &&
          A.any (fun pr => decide (pr.1 = qa.rcall)) then
        (lookup_qsos A qa.rcall).filterMap (fun qb =>
          if qb.rcall = a then some (qa, qb) else none)
      else [])) = direct_pairs A noFreq a rest from rfl]
    by_cases hg : (!noFreq.contains qa.rcall && A.any (fun pr => decide (pr.1 = qa.rcall))) = true
    · have hb1 : noFreq.contains qa.rcall = false := by
        have := (Bool.and_eq_true _ _).mp hg
        simpa using this.1
      have hb2 : A.any (fun pr => decide (pr.1 = qa.rcall)) = true :=
        ((Bool.and_eq_true _ _).mp hg).2
      rw [hg]
      simp only [if_true, ite_true]
      rw [cross_pairs, List.flatMap_cons]
      rw [cross_pairs] at ih
      rw [ih, List.map_append]
      congr 1
      rw [show (worked A noFreq) = A.filterMap (fun pr => if noFreq.contains pr.1 then none
          else some (pr.1, worked_pairs A noFreq pr.2)) from rfl]
      rw [find_filterMap_worked A noFreq A qa.rcall hb1]
      obtain ⟨pr0, hpr0, hpred⟩ := List.any_eq_true.mp hb2
      have hfind : ∃ pr1, A.find? (fun pr => decide (pr.1 = qa.rcall)) = some pr1 := by
        rw [← Option.isSome_iff_exists]
        rw [List.find?_isSome]
        exact ⟨pr0, hpr0, hpred⟩
      obtain ⟨pr1, hpr1⟩ := hfind
      rw [hpr1]
      simp only [Option.map_some', Option.getD_some]
      rw [worked_pairs_filter A noFreq a ha1 ha2 (band_time_freq qa) pr1.2]
      rw [show lookup_qsos A qa.rcall = pr1.2 from by rw [lookup_qsos, hpr1]; rfl]
      rw [List.map_filterMap]
      congr 1
      funext qb
      by_cases hqb : qb.rcall = a
      · simp [hqb]
      · simp [hqb]
    · have hg' : (!noFreq.contains qa.rcall && A.any (fun pr => decide (pr.1 = qa.rcall))) = false :=
        Bool.eq_false_iff.mpr hg
      rw [hg']
      simp only [Bool.false_eq_true, if_false, ite_false, List.nil_append]
      exact ih

lemma lookup_qsos_of_nodup (A : List (Call × List small_qso))
    (hnd : (A.map (·.1)).Nodup) (pr : Call × List small_qso) (hpr : pr ∈ A) :
    lookup_qsos A pr.1 = pr.2 := by
  induction A with
  | nil => cases hpr
  | cons q rest ih =>
    rcases List.mem_cons.mp hpr with h | h
    · rw [h, lookup_qsos, List.find?_cons, decide_eq_true rfl]
      rfl
    · have hq : q.1 ≠ pr.1 := by
        intro he
        have : pr.1 ∈ rest.map (·.1) := List.mem_map.mpr ⟨pr, h, rfl⟩
        rw [List.map_cons] at hnd
        have := (List.nodup_cons.mp hnd).1
        rw [he] at this
        exact this ‹pr.1 ∈ rest.map (·.1)›
      rw [lookup_qsos, List.find?_cons, decide_eq_false hq]
      exact ih (by rw [List.map_cons] at hnd; exact (List.nodup_cons.mp hnd).2) h

lemma cross_total_eq (A : List (Call × List small_qso)) (noFreq : List Call) (a : Call)
    (ha1 : noFreq.contains a = false)
    (ha2 : A.any (fun pr => decide (pr.1 = a)) = true)
    (qsosA : List small_qso) :
    (cross_pairs (worked A noFreq) a (worked_pairs A noFreq qsosA)).countP
        (fun p => reverse_match p.1 p.2)
      = ((direct_pairs A noFreq a qsosA).filter (fun p =>
          decide (band_from_qrg p.1.qrg = band_from_qrg p.2.qrg) &&
            decide (((p.1.rel_mins - p.2.rel_mins).natAbs : Int) < RUN_TIME_RANGE))).length := by
  rw [cross_pairs_eq A noFreq a ha1 ha2 qsosA, List.countP_map,
    ← List.countP_eq_length_filter]
  rfl

lemma cross_good_eq (A : List (Call × List small_qso)) (noFreq : List Call) (a : Call)
    (ha1 : noFreq.contains a = false)
    (ha2 : A.any (fun pr => decide (pr.1 = a)) = true)
    (qsosA : List small_qso) :
    (cross_pairs (worked A noFreq) a (worked_pairs A noFreq qsosA)).countP
        (fun p => reverse_good p.1 p.2)
      = ((direct_pairs A noFreq a qsosA).filter (fun p =>
          decide (band_from_qrg p.1.qrg = band_from_qrg p.2.qrg) &&
            decide (((p.1.rel_mins - p.2.rel_mins).natAbs : Int) < RUN_TIME_RANGE))).countP
          (fun p => decide (((p.1.qrg - p.2.qrg).natAbs : Int) < FREQ_SKEW)) := by
  rw [cross_pairs_eq A noFreq a ha1 ha2 qsosA, List.countP_map, List.countP_filter]
  apply List.countP_congr
  intro p hp
  simp only [Function.comp_apply, reverse_good, reverse_match, band_time_freq,
    Bool.and_eq_true, decide_eq_true_eq]
  tauto

/-- **C7 (amended).** A sender is classified poor-frequency exactly when it is
an entrant with frequency information whose reciprocal cross-check pairings
(reverse QSO on the same band, strictly within 5 minutes) are non-empty and
whose cumulative good/total ratio - computed in single-precision floating
point, so that a ratio of exactly 9/10 also counts - lies below 0.9; good
pairings are those whose logged frequencies differ by strictly less than
2 kHz. -/
theorem calls_with_unreliable_freq_characterisation
    (allQsos : List (Call × List small_qso)) (noFreq : List Call)
    (hnd : (allQsos.map (·.1)).Nodup) (a : Call) :
    a ∈ calls_with_unreliable_freq allQsos noFreq ↔
      (a ∈ allQsos.map (·.1) ∧ noFreq.contains a = false ∧
        (spec_freq_pairings allQsos noFreq a).length ≠ 0 ∧
        good_fraction_below_0_9 (spec_good_count allQsos noFreq a)
          (spec_freq_pairings allQsos noFreq a).length = true) := by
  constructor
  · intro h
    rw [calls_with_unreliable_freq] at h
    obtain ⟨x, hx, hsome⟩ := List.mem_filterMap.mp h
    obtain ⟨w, hw, hxw⟩ := List.mem_map.mp hx
    obtain ⟨pr, hpr, hprsome⟩ := List.mem_filterMap.mp hw
    by_cases hn : noFreq.contains pr.1 = true
    · rw [if_pos hn] at hprsome
      cases hprsome
    · have hn' : noFreq.contains pr.1 = false := Bool.eq_false_iff.mpr hn
      rw [if_neg hn] at hprsome
      have hw1 : w = (pr.1, worked_pairs allQsos noFreq pr.2) := by
        exact Option.some.inj hprsome.symm
      by_cases hcond : (decide (x.2.1 ≠ 0) && good_fraction_below_0_9 x.2.2 x.2.1) = true
      · have hxa : x.1 = a := by
          rw [if_pos hcond] at hsome
          exact Option.some.inj hsome
        have hwa : pr.1 = a := by
          rw [← hxa, ← hxw, hw1]
        have ha2 : allQsos.any (fun p => decide (p.1 = a)) = true :=
          List.any_eq_true.mpr ⟨pr, hpr, decide_eq_true hwa⟩
        have ha1 : noFreq.contains a = false := by rw [← hwa]; exact hn'
        have hlook : lookup_qsos allQsos a = pr.2 := by
          rw [← hwa]
          exact lookup_qsos_of_nodup allQsos hnd pr hpr
        have htot : x.2.1 = (spec_freq_pairings allQsos noFreq a).length := by
          rw [← hxw, hw1]
          rw [spec_freq_pairings, hlook]
          rw [show ((pr.1, worked_pairs allQsos noFreq pr.2) : Call × List (Call × BAND_TIME_FREQ)).2
            = worked_pairs allQsos noFreq pr.2 from rfl]
          rw [show ((pr.1, worked_pairs allQsos noFreq pr.2) : Call × List (Call × BAND_TIME_FREQ)).1
            = pr.1 from rfl]
          rw [hwa]
          exact cross_total_eq allQsos noFreq a ha1 ha2 pr.2
        have hgood : x.2.2 = spec_good_count allQsos noFreq a := by
          rw [← hxw, hw1]
          rw [spec_good_count, spec_freq_pairings, hlook]
          rw [show ((pr.1, worked_pairs allQsos noFreq pr.2) : Call × List (Call × BAND_TIME_FREQ)).2
            = worked_pairs allQsos noFreq pr.2 from rfl]
          rw [show ((pr.1, worked_pairs allQsos noFreq pr.2) : Call × List (Call × BAND_TIME_FREQ)).1
            = pr.1 from rfl]
          rw [hwa]
          exact cross_good_eq allQsos noFreq a ha1 ha2 pr.2
        obtain ⟨hc1, hc2⟩ := Bool.and_eq_true_iff.mp hcond
        refine ⟨List.mem_map.mpr ⟨pr, hpr, hwa⟩, ha1, ?_, ?_⟩
        · rw [← htot]
          exact of_decide_eq_true hc1
        · rw [← htot, ← hgood]
          exact hc2
      · rw [if_neg hcond] at hsome
        cases hsome
  · rintro ⟨hk, hnf, hne, hflo⟩
    obtain ⟨pr, hpr, hpra⟩ := List.mem_map.mp hk
    have hlook : lookup_qsos allQsos a = pr.2 := by
      rw [← hpra]
      exact lookup_qsos_of_nodup allQsos hnd pr hpr
    have ha2 : allQsos.any (fun p => decide (p.1 = a)) = true :=
      List.any_eq_true.mpr ⟨pr, hpr, decide_eq_true hpra⟩
    have hnpr : noFreq.contains pr.1 = false := by rw [hpra]; exact hnf
    have htot : (cross_pairs (worked allQsos noFreq) pr.1
        (worked_pairs allQsos noFreq pr.2)).countP (fun p => reverse_match p.1 p.2)
          = (spec_freq_pairings allQsos noFreq a).length := by
      rw [hpra, spec_freq_pairings, hlook]
      exact cross_total_eq allQsos noFreq a hnf ha2 pr.2
    have hgood : (cross_pairs (worked allQsos noFreq) pr.1
        (worked_pairs allQsos noFreq pr.2)).countP (fun p => reverse_good p.1 p.2)
          = spec_good_count allQsos noFreq a := by
      rw [hpra, spec_good_count, spec_freq_pairings, hlook]
      exact cross_good_eq allQsos noFreq a hnf ha2 pr.2
    rw [calls_with_unreliable_freq]
    apply List.mem_filterMap.mpr
    refine ⟨(pr.1, ((cross_pairs (worked allQsos noFreq) pr.1
        (worked_pairs allQsos noFreq pr.2)).countP (fun p => reverse_match p.1 p.2),
      (cross_pairs (worked allQsos noFreq) pr.1
        (worked_pairs allQsos noFreq pr.2)).countP (fun p => reverse_good p.1 p.2))), ?_, ?_⟩
    · apply List.mem_map.mpr
      refine ⟨(pr.1, worked_pairs allQsos noFreq pr.2), ?_, rfl⟩
      apply List.mem_filterMap.mpr
      refine ⟨pr, hpr, ?_⟩
      rw [if_neg (by rw [hnpr]; exact Bool.false_ne_true)]
    · have hcond : (decide (((cross_pairs (worked allQsos noFreq) pr.1
          (worked_pairs allQsos noFreq pr.2)).countP (fun p => reverse_match p.1 p.2)) ≠ 0) &&
            good_fraction_below_0_9
              ((cross_pairs (worked allQsos noFreq) pr.1
                (worked_pairs allQsos noFreq pr.2)).countP (fun p => reverse_good p.1 p.2))
              ((cross_pairs (worked allQsos noFreq) pr.1
                (worked_pairs allQsos noFreq pr.2)).countP (fun p => reverse_match p.1 p.2)))
          = true := by
        rw [htot, hgood]
        rw [Bool.and_eq_true_iff]
        exact ⟨decide_eq_true hne, hflo⟩
      rw [if_pos hcond, hpra]

/-- Concrete logs for the threshold counterexample: `A1A` and `B2B` each log
ten reciprocal QSOs at matching times on 20 m; nine agree in frequency and one
differs by 10 kHz, so each sender's cross-check ratio is exactly 9/10. -/
def c7_example : List (Call × List small_qso) :=
  [(['A', '1', 'A'], (List.range 10).map (fun i =>
      { tcall := ['A', '1', 'A'], rcall := ['B', '2', 'B'], band := HF_BAND.B20, qrg := 14050,
        time := 600 * (i : Int), rel_mins := 10 * (i : Int), id := (i : Int) + 1 })),
   (['B', '2', 'B'], (List.range 10).map (fun i =>
      { tcall := ['B', '2', 'B'], rcall := ['A', '1', 'A'], band := HF_BAND.B20,
        qrg := if i = 0 then 14060 else 14050,
        time := 600 * (i : Int), rel_mins := 10 * (i : Int), id := 101 + (i : Int) }))]

/-- **C7 counterexample.** The claim says a sender is classified poor exactly
when its rational good/total ratio is below 0.9.  With good = 9 and total = 10
the ratio is exactly 9/10 - not below 0.9 - yet `calls_with_unreliable_freq`
classifies the sender poor, because `float(9)/10` rounds to
`15099494 * 2^-24 < 0.9`. -/
theorem calls_with_unreliable_freq_counterexample :
    ¬ ((['A', '1', 'A'] ∈ calls_with_unreliable_freq c7_example []) ↔
        10 * spec_good_count c7_example [] ['A', '1', 'A']
          < 9 * (spec_freq_pairings c7_example [] ['A', '1', 'A']).length) := by
  decide

/-- Witness for `calls_with_unreliable_freq_characterisation` at the concrete
two-log corpus. -/
theorem calls_with_unreliable_freq_characterisation_witness :
    ((c7_example.map (·.1)).Nodup) ∧
      ((['A', '1', 'A'] ∈ calls_with_unreliable_freq c7_example []) ↔
        (['A', '1', 'A'] ∈ c7_example.map (·.1) ∧ ([] : List Call).contains ['A', '1', 'A'] = false ∧
          (spec_freq_pairings c7_example [] ['A', '1', 'A']).length ≠ 0 ∧
          good_fraction_below_0_9 (spec_good_count c7_example [] ['A', '1', 'A'])
            (spec_freq_pairings c7_example [] ['A', '1', 'A']).length = true)) :=
  ⟨by decide, calls_with_unreliable_freq_characterisation c7_example [] (by decide) ['A', '1', 'A']⟩

/-- `tcall_qsos[tcall] += qso` (drscp.cpp line 755): append a QSO to its
sender's entry of an association map, creating the entry at the end when the
key is new. -/
def append_group (m : List (Call × List small_qso)) (k : Call) (q : small_qso) :
    List (Call × List small_qso) :=
  match m with
  | [] => [(k, [q])]
  | (kk, v) :: rest => if kk = k then (kk, v ++ [q]) :: rest else (kk, v) :: append_group rest k q

/-- The per-file ingest loop of `process_directory` (drscp.cpp lines
725-758): accept each parsed `QSO:` line and group the accepted QSOs by
sender. -/
def ingest_file (cp : contest_parameters) (lines : List small_qso) :
    List (Call × List small_qso) :=
  lines.foldl (fun m q =>
    match accept_qso cp q with
    | some qq => append_group m qq.tcall qq
    | none => m) []

/-- `all_qsos += { tcall, qsos }` (drscp.cpp line 764): `unordered_map`
insertion, which keeps the existing entry when the key is already present. -/
def insert_absent (m : List (Call × List small_qso)) (k : Call) (v : List small_qso) :
    List (Call × List small_qso) :=
  if m.any (fun pr => decide (pr.1 = k)) then m else m ++ [(k, v)]

/-- The whole-directory ingest of `process_directory` (drscp.cpp lines
720-774): merge each non-empty per-file map into `all_qsos` and record as an
automatic entrant each sender claiming at least `tlLimit` QSOs. -/
def ingest (cp : contest_parameters) (tlLimit : Int) (logs : List (List small_qso)) :
    List (Call × List small_qso) × List Call :=
  logs.foldl (fun acc lines =>
    let t := ingest_file cp lines
    if t = [] then acc
    else
      (t.foldl (fun m pr => insert_absent m pr.1 pr.2) acc.1,
        acc.2 ++ t.filterMap (fun pr =>
          if tlLimit ≤ (pr.2.length : Int) then some pr.1 else none)))
    ([], [])

/-- `(cm[call])++` on the ordered output map `CALL_MAP` (drscp.h lines
73-74), modelled as an association list; the `compare_calls` ordering of the
map lives in string_functions (not among the provided sources) and only
affects output order, which no claim depends on. -/
def bump (m : List (Call × Nat)) (c : Call) : List (Call × Nat) :=
  if m.any (fun pr => decide (pr.1 = c)) then
    m.map (fun pr => if pr.1 = c then (pr.1, pr.2 + 1) else pr)
  else m ++ [(c, 1)]

/-- The band-edge default frequencies (drscp.cpp line 824): a log whose every
frequency comes from this set carries no frequency information. -/
def default_band_freq : List Int := [1800, 3500, 7000, 14000, 21000, 28000]

/-- `rv[band][tcall] += qso` of `build_minilog` (drscp.cpp lines 303-316). -/
def append_group2 (acc : List (HF_BAND × List (Call × List small_qso))) (b : HF_BAND)
    (k : Call) (q : small_qso) : List (HF_BAND × List (Call × List small_qso)) :=
  match acc with
  | [] => [(b, [(k, [q])])]
  | (bb, m) :: rest =>
    if bb = b then (bb, append_group m k q) :: rest else (bb, m) :: append_group2 rest b k q

/-- `build_minilog` (drscp.cpp lines 303-316): split a per-sender map into
per-band per-sender maps. -/
def build_minilog (m : List (Call × List small_qso)) :
    List (HF_BAND × List (Call × List small_qso)) :=
  m.foldl (fun acc pr => pr.2.foldl (fun acc2 q => append_group2 acc2 q.band q.tcall q) acc) []

/-- `unordered_map<HF_BAND, ...>::contains` / `at`. -/
def lookup_band (m : List (HF_BAND × List (Call × List small_qso))) (b : HF_BAND) :
    Option (List (Call × List small_qso)) :=
  (m.find? (fun pr => decide (pr.1 = b))).map (·.2)

/-- The `all_qsos` map of `process_directory` after ingest, each sender's log
sorted chronologically (drscp.cpp lines 788-789). -/
def pd_all_qsos (cp : contest_parameters) (tlLimit : Int) (logs : List (List small_qso)) :
    List (Call × List small_qso) :=
  (ingest cp tlLimit logs).1.map (fun pr => (pr.1, sort_qsos pr.2))

/-- The automatic-entrant set `scp_calls` (drscp.cpp lines 766-767). -/
def pd_scp_calls (cp : contest_parameters) (tlLimit : Int) (logs : List (List small_qso)) :
    List Call :=
  (ingest cp tlLimit logs).2

/-- The seed output map `scp_cm` (drscp.cpp lines 801-809): one increment per
QSO whose received call is an automatic entrant. -/
def pd_scp_cm (cp : contest_parameters) (tlLimit : Int) (logs : List (List small_qso)) :
    List (Call × Nat) :=
  (pd_all_qsos cp tlLimit logs).foldl (fun m pr => pr.2.foldl (fun m2 q =>
    if (pd_scp_calls cp tlLimit logs).contains q.rcall then bump m2 q.rcall else m2) m) []

/-- The pruned map after removing entrant received calls and empty senders
(drscp.cpp lines 797-815). -/
def pd_pruned_qsos (cp : contest_parameters) (tlLimit : Int) (logs : List (List small_qso)) :
    List (Call × List small_qso) :=
  ((pd_all_qsos cp tlLimit logs).map (fun pr =>
    (pr.1, pr.2.filter (fun q => !(pd_scp_calls cp tlLimit logs).contains q.rcall)))).filter
      (fun pr => !pr.2.isEmpty)

/-- `calls_with_no_freq_info` (drscp.cpp lines 821-828). -/
def pd_no_freq (cp : contest_parameters) (tlLimit : Int) (logs : List (List small_qso)) :
    List Call :=
  (pd_all_qsos cp tlLimit logs).filterMap (fun pr =>
    if pr.2.all (fun q => default_band_freq.contains q.qrg) then some pr.1 else none)

/-- The union of the per-band `process_band` results (drscp.cpp lines
862-882): one band pruner per contest band present in both projections. -/
def pd_returned_calls (cutoffLimit tlLimit : Int) (cp : contest_parameters)
    (logs : List (List small_qso)) : List Call :=
  (([HF_BAND.B160, HF_BAND.B80, HF_BAND.B40, HF_BAND.B20, HF_BAND.B15,
      HF_BAND.B10]).filterMap (fun b =>
    match lookup_band (build_minilog (pd_pruned_qsos cp tlLimit logs)) b,
        lookup_band (build_minilog (pd_all_qsos cp tlLimit logs)) b with
    | some pq, some aq =>
      some (process_band cutoffLimit pq aq (pd_no_freq cp tlLimit logs)
        (calls_with_unreliable_freq (pd_all_qsos cp tlLimit logs) (pd_no_freq cp tlLimit logs))
        (cp.hours * 60 - 1))
    | _, _ => none)).flatten

/-- `process_directory` (drscp.cpp lines 709-906): the output map, seeded
with `scp_cm` and incremented once per QSO whose received call the band
pruners validated. -/
def process_directory (cutoffLimit tlLimit : Int) (cp : contest_parameters)
    (logs : List (List small_qso)) : List (Call × Nat) :=
  (pd_all_qsos cp tlLimit logs).foldl (fun m pr => pr.2.foldl (fun m2 q =>
    if (pd_returned_calls cutoffLimit tlLimit cp logs).contains q.rcall then bump m2 q.rcall
    else m2) m) (pd_scp_cm cp tlLimit logs)

/-- The QSOs ingested into `all_qsos` for one contest. -/
def ingested_qsos (cp : contest_parameters) (tlLimit : Int) (logs : List (List small_qso)) :
    List small_qso :=
  (ingest cp tlLimit logs).1.flatMap (·.2)

lemma bump_keys (m : List (Call × Nat)) (c k : Call)
    (h : k ∈ (bump m c).map (·.1)) : k ∈ m.map (·.1) ∨ k = c := by
  rw [bump] at h
  by_cases hmem : m.any (fun pr => decide (pr.1 = c)) = true
  · rw [if_pos hmem] at h
    left
    rw [List.map_map] at h
    have : ((fun pr : Call × Nat => pr.1) ∘ fun pr : Call × Nat =>
        if pr.1 = c then (pr.1, pr.2 + 1) else pr) = fun pr : Call × Nat => pr.1 := by
      funext pr
      simp only [Function.comp_apply]
      split <;> rfl
    rw [this] at h
    exact h
  · rw [if_neg hmem, List.map_append] at h
    rcases List.mem_append.mp h with h | h
    · exact Or.inl h
    · right
      simpa using h

lemma foldl_bump_keys (P : small_qso → Bool) (qs : List small_qso) (m : List (Call × Nat))
    (k : Call)
    (h : k ∈ ((qs.foldl (fun m2 q => if P q then bump m2 q.rcall else m2) m).map (·.1))) :
    k ∈ m.map (·.1) ∨ ∃ q ∈ qs, q.rcall = k := by
  induction qs generalizing m with
  | nil => exact Or.inl h
  | cons q rest ih =>
    rw [List.foldl_cons] at h
    rcases ih _ h with h1 | h1
    · by_cases hp : P q = true
      · rw [if_pos hp] at h1
        rcases bump_keys _ _ _ h1 with h2 | h2
        · exact Or.inl h2
        · exact Or.inr ⟨q, List.mem_cons_self q rest, h2.symm⟩
      · rw [if_neg hp] at h1
        exact Or.inl h1
    · obtain ⟨qq, hq, hrk⟩ := h1
      exact Or.inr ⟨qq, List.mem_cons_of_mem q hq, hrk⟩

lemma foldl2_bump_keys (P : small_qso → Bool) (prs : List (Call × List small_qso))
    (m : List (Call × Nat)) (k : Call)
    (h : k ∈ ((prs.foldl (fun m1 pr => pr.2.foldl
        (fun m2 q => if P q then bump m2 q.rcall else m2) m1) m).map (·.1))) :
    k ∈ m.map (·.1) ∨ ∃ pr ∈ prs, ∃ q ∈ pr.2, q.rcall = k := by
  induction prs generalizing m with
  | nil => exact Or.inl h
  | cons pr rest ih =>
    rw [List.foldl_cons] at h
    rcases ih _ h with h1 | h1
    · rcases foldl_bump_keys P pr.2 m k h1 with h2 | h2
      · exact Or.inl h2
      · obtain ⟨q, hq, hrk⟩ := h2
        exact Or.inr ⟨pr, List.mem_cons_self pr rest, q, hq, hrk⟩
    · obtain ⟨pp, hpp, q, hq, hrk⟩ := h1
      exact Or.inr ⟨pp, List.mem_cons_of_mem pr hpp, q, hq, hrk⟩

lemma mem_ingested_of_mem_all (cp : contest_parameters) (tlLimit : Int)
    (logs : List (List small_qso)) (pr : Call × List small_qso) (q : small_qso)
    (hpr : pr ∈ pd_all_qsos cp tlLimit logs) (hq : q ∈ pr.2) :
    q ∈ ingested_qsos cp tlLimit logs := by
  rw [pd_all_qsos] at hpr
  obtain ⟨pr0, hpr0, hpr0e⟩ := List.mem_map.mp hpr
  rw [← hpr0e] at hq
  have hq0 : q ∈ pr0.2 := by
    have := (List.perm_insertionSort qso_le pr0.2).mem_iff (a := q)
    rw [sort_qsos] at hq
    exact this.mp hq
  exact List.mem_flatMap.mpr ⟨pr0, hpr0, hq0⟩

/-- **C10.** Every key of the map returned by `process_directory` is the
received call of some ingested QSO: the output map is built solely by
incrementing per-received-call counts, so a callsign no log records as an
rcall is absent from the output. -/
theorem process_directory_keys (cutoffLimit tlLimit : Int) (cp : contest_parameters)
    (logs : List (List small_qso)) (c : Call)
    (hc : c ∈ (process_directory cutoffLimit tlLimit cp logs).map (·.1)) :
    ∃ q ∈ ingested_qsos cp tlLimit logs, q.rcall = c := by
  rw [process_directory] at hc
  rcases foldl2_bump_keys _ _ _ _ hc with h1 | h1
  · rw [pd_scp_cm] at h1
    rcases foldl2_bump_keys _ _ _ _ h1 with h2 | h2
    · cases h2
    · obtain ⟨pr, hpr, q, hq, hrk⟩ := h2
      exact ⟨q, mem_ingested_of_mem_all cp tlLimit logs pr q hpr hq, hrk⟩
  · obtain ⟨pr, hpr, q, hq, hrk⟩ := h1
    exact ⟨q, mem_ingested_of_mem_all cp tlLimit logs pr q hpr hq, hrk⟩

/-- One concrete log: `K1AB` works `W9XYZ` twice on 20 m inside a one-hour
contest starting at epoch 0. -/
def c10_logs : List (List small_qso) :=
  [[{ tcall := ['K', '1', 'A', 'B'], rcall := ['W', '9', 'X', 'Y', 'Z'], band := HF_BAND.B20,
      qrg := 14050, time := 600, rel_mins := 0, id := 1 },
    { tcall := ['K', '1', 'A', 'B'], rcall := ['W', '9', 'X', 'Y', 'Z'], band := HF_BAND.B20,
      qrg := 14050, time := 660, rel_mins := 0, id := 2 }]]

/-- Witness for `process_directory_keys`: on the concrete corpus the key
`W9XYZ` of the output map is the received call of an ingested QSO. -/
theorem process_directory_keys_witness :
    (['W', '9', 'X', 'Y', 'Z'] ∈
        (process_directory 1 1 (contest_parameters.make 0 1) c10_logs).map (·.1)) ∧
      ∃ q ∈ ingested_qsos (contest_parameters.make 0 1) 1 c10_logs,
        q.rcall = ['W', '9', 'X', 'Y', 'Z'] :=
  ⟨by decide,
    process_directory_keys 1 1 (contest_parameters.make 0 1) c10_logs _ (by decide)⟩
